import Mathlib

/-!
# Verification of the NuxtImageFallback component

Shallow embedding of `src/NuxtImageFallback.vue`: the pure URL-builder helpers
(`makeResizedImageUrl`, `makeResizedSrcSet`) and the fallback controller
(`fallbackUrls`, `initializeImage` — here `initImage` — and `handleError`),
together with proofs of the specification claims about them.

Strings are modelled as lists of characters (`Str`).  The JavaScript string
primitives used by the source (`lastIndexOf`, `slice`, `substring`, template
interpolation of numbers, `Array.prototype.join`, `new Set`) are embedded with
their JavaScript semantics, in particular the handling of the `-1` returned by
`lastIndexOf` when no `.` occurs, and JS truthiness (`0`, the empty string and
`undefined` are falsy).  Optional/possibly-`undefined` values are `Option`s.
-/

/-- JavaScript strings, modelled as lists of characters. -/
abbrev Str := List Char

/-- Decimal rendering of a number, as JS template interpolation of a
nonnegative integer produces. -/
def natToStr (n : Nat) : Str := (Nat.repr n).toList

/-- `s.lastIndexOf(c)`: index of the last occurrence of `c`, `-1` if absent. -/
def jsLastIndexOf (c : Char) : Str → Int
  | [] => -1
  | a :: rest =>
    let r := jsLastIndexOf c rest
    if 0 ≤ r then r + 1 else if a = c then 0 else -1

/-- Normalisation of a `slice` index: negative indices count from the end
(clamped at 0), nonnegative ones are clamped at the length. -/
def normSliceIdx (len : Nat) (i : Int) : Nat :=
  if i < 0 then ((len : Int) + i).toNat else min i.toNat len

/-- `s.slice(a, b)` with full JavaScript index semantics. -/
def jsSlice (s : Str) (a b : Int) : Str :=
  (s.take (normSliceIdx s.length b)).drop (normSliceIdx s.length a)

/-- `s.substring(a, b)`: negative arguments are clamped to 0, and the two
normalised indices are swapped when out of order. -/
def jsSubstring (s : Str) (a b : Int) : Str :=
  let x := min a.toNat s.length
  let y := min b.toNat s.length
  (s.take (max x y)).drop (min x y)

/-- `array.join(sep)`. -/
def jsJoin (sep : Str) : List Str → Str
  | [] => []
  | [x] => x
  | x :: y :: rest => x ++ sep ++ jsJoin sep (y :: rest)

/-- JS truthiness of a possibly-`undefined` number: `undefined` and `0` are
falsy. -/
def truthyN : Option Nat → Bool
  | some n => if n = 0 then false else true
  | none => false

/-- JS truthiness of a possibly-`undefined` string: `undefined` and `""` are
falsy. -/
def truthyS : Option Str → Bool
  | some s => if s = [] then false else true
  | none => false

/-- `a || b` for a possibly-`undefined` number `a`. -/
def jsOrNat : Option Nat → Nat → Nat
  | some n, d => if n = 0 then d else n
  | none, d => d

/-- `a || b` for a possibly-`undefined` string `a`. -/
def jsOrStr : Option Str → Str → Str
  | some s, d => if s = [] then d else s
  | none, d => d

/-- The argument object of `makeResizedImageUrl({src, w, h, dens, ext})`;
absent fields are `undefined`, i.e. `none`. -/
structure ImgUrlArgs where
  src : Str
  w : Option Nat := none
  h : Option Nat := none
  dens : Option Nat := none
  ext : Option Str := none
  deriving DecidableEq

/-- `makeResizedImageUrl` from `helpers/image`, transliterated from the
source. -/
def makeResizedImageUrl (a : ImgUrlArgs) : Str :=
  let indexOfLastDot := jsLastIndexOf '.' a.src
  let baseUrl := jsSlice a.src 0 indexOfLastDot
  let sizes :=
    if truthyN a.w && truthyN a.h then
      ('_' :: '_' :: natToStr (a.w.getD 0)) ++ 'x' :: natToStr (a.h.getD 0)
    else []
  let extension :=
    if truthyS a.ext then '.' :: a.ext.getD []
    else jsSlice a.src indexOfLastDot (a.src.length : Int)
  let densityString :=
    if truthyN a.dens then ' ' :: (natToStr (a.dens.getD 0) ++ ['x']) else []
  baseUrl ++ sizes ++ extension ++ densityString

/-- One entry of the `sizes` prop (and of `makeResizedSrcSet`'s second
argument): every field may be absent. -/
structure SizeVariant where
  w : Option Nat := none
  h : Option Nat := none
  dens : Option Nat := none
  ext : Option Str := none
  deriving DecidableEq

/-- `makeResizedSrcSet` from `helpers/image`: map each size through
`makeResizedImageUrl({src, ...size})` and join with `", "`. -/
def makeResizedSrcSet (src : Str) (sizes : List SizeVariant) : Str :=
  jsJoin (", ".toList)
    (sizes.map fun size =>
      makeResizedImageUrl
        { src := src, w := size.w, h := size.h, dens := size.dens, ext := size.ext })

/-- The component's props that the fallback logic reads.  `w`, `h` default to
`0`, `ext` to `"webp"`, `sizes` to `[]`. -/
structure ImageRequest where
  src : Str := []
  w : Nat := 0
  h : Nat := 0
  ext : Str := "webp".toList
  sizes : List SizeVariant := []
  deriving DecidableEq

/-- The `srcWithExt` computed: `src` with its extension swapped to `ext`
whenever `ext` is truthy. -/
def srcWithExt (req : ImageRequest) : Str :=
  let indexOfLastDot := jsLastIndexOf '.' req.src
  let baseUrl := jsSlice req.src 0 indexOfLastDot
  let extension :=
    if req.ext ≠ [] then '.' :: req.ext
    else jsSlice req.src indexOfLastDot (req.src.length : Int)
  baseUrl ++ extension

/-- One step of building `[...new Set(urls)]`: append an element unless it was
already seen. -/
def insertSet (seen : List Str) (x : Str) : List Str :=
  if x ∈ seen then seen else seen ++ [x]

/-- `[...new Set(l)]`: deduplication keeping the first occurrence, in
insertion order. -/
def jsSetDedup (l : List Str) : List Str := l.foldl insertSet []

/-- The body of the `forEach` over `props.sizes` in the `fallbackUrls`
computed: swap the extension to `size.ext || ext || 'webp'` and resize to
`size.w || w` by `size.h || h`. -/
def sizeCandidate (req : ImageRequest) (size : SizeVariant) : Str :=
  let extToUse := jsOrStr size.ext (if req.ext = [] then "webp".toList else req.ext)
  let baseUrl := jsSubstring req.src 0 (jsLastIndexOf '.' req.src)
  let urlWithExt := baseUrl ++ '.' :: extToUse
  makeResizedImageUrl
    { src := urlWithExt, w := some (jsOrNat size.w req.w), h := some (jsOrNat size.h req.h) }

/-- The `fallbackUrls` computed, transliterated from the source: push the
primary resized URL, push one resized URL per `sizes` entry (guarded by a
nonemptiness test, as in the source), push the unsized `srcWithExt`, then
deduplicate with `new Set`. -/
def fallbackUrls (req : ImageRequest) : List Str :=
  let urls := [makeResizedImageUrl { src := srcWithExt req, w := some req.w, h := some req.h }]
  let urls := if 0 < req.sizes.length then urls ++ req.sizes.map (sizeCandidate req) else urls
  let urls := urls ++ [srcWithExt req]
  jsSetDedup urls

/-- Canonical "remove duplicates keeping the first occurrence" on lists,
following the specification's wording; compared against `jsSetDedup` below. -/
def keepFirst : List Str → List Str
  | [] => []
  | x :: xs => x :: keepFirst (xs.filter fun y => decide (¬ y = x))
termination_by l => l.length
decreasing_by
  simp_wf
  have := List.length_filter_le (fun y => !decide (y = x)) xs
  omega

/-- The CandidateList exactly as the specification words it: primary resized
URL, then one resized URL per `sizes` entry in input order, then the
extension-swapped unsized src, with duplicates removed keeping the first
occurrence. -/
def candidateListSpec (req : ImageRequest) : List Str :=
  keepFirst
    ([makeResizedImageUrl { src := srcWithExt req, w := some req.w, h := some req.h }]
      ++ req.sizes.map (sizeCandidate req)
      ++ [srcWithExt req])

/-- The controller's mutable refs: `currentIndex`, `imageKey` (render key),
`currentSrc` and the `urlCache` `Map` (insertion-ordered association list). -/
structure ControllerState where
  currentIndex : Nat
  imageKey : Nat
  currentSrc : Str
  urlCache : List (Str × Bool)
  deriving DecidableEq

/-- `Map.prototype.get` combined with `has`: `none` when the key is absent. -/
def cacheGet : List (Str × Bool) → Str → Option Bool
  | [], _ => none
  | e :: rest, u => if e.1 = u then some e.2 else cacheGet rest u

/-- `Map.prototype.set`: overwrite in place when the key is present, append
otherwise. -/
def cacheSet (c : List (Str × Bool)) (k : Str) (v : Bool) : List (Str × Bool) :=
  if (cacheGet c k).isSome then c.map (fun e => if e.1 = k then (k, v) else e)
  else c ++ [(k, v)]

/-- The three console signals the controller emits. -/
inductive Signal where
  | warn : Str → Signal
  | info : Str → Signal
  | error : List Str → Signal
  deriving DecidableEq

/-- `x || ''` applied to a possibly-`undefined` indexing result. -/
def jsOrEmptyStr : Option Str → Str
  | some s => if s = [] then [] else s
  | none => []

/-- `initializeImage` from the source: reset the cursor to 0, show the first
candidate (`fallbackUrls[0] || ''`) and bump the render key.  The `urlCache`
is not touched. -/
def initImage (urls : List Str) (s : ControllerState) : ControllerState :=
  { s with currentIndex := 0, currentSrc := jsOrEmptyStr urls[0]?, imageKey := s.imageKey + 1 }

/-- `handleError` from the source: cache the failing URL as bad, warn, advance
the cursor; if past the end emit the error signal and stop, otherwise skip
(recursively) any next candidate already cached as bad, and finally display
the first non-bad candidate with a fresh render key and an info signal.
Returns the new state together with the emitted signals, in order. -/
def handleError (urls : List Str) (s : ControllerState) : ControllerState × List Signal :=
  let failedUrl := s.currentSrc
  let cache1 := cacheSet s.urlCache failedUrl false
  if h : urls.length ≤ s.currentIndex + 1 then
    ({ s with urlCache := cache1, currentIndex := s.currentIndex + 1 },
      [Signal.warn failedUrl, Signal.error urls])
  else
    let next := urls.get ⟨s.currentIndex + 1, by omega⟩
    if cacheGet cache1 next = some false then
      let r := handleError urls
        { s with urlCache := cache1, currentIndex := s.currentIndex + 1 }
      (r.1, Signal.warn failedUrl :: r.2)
    else
      ({ s with
          urlCache := cache1, currentIndex := s.currentIndex + 1,
          currentSrc := next, imageKey := s.imageKey + 1 },
        [Signal.warn failedUrl, Signal.info next])
termination_by urls.length - s.currentIndex
decreasing_by
  simp_wf
  omega

/-- External stimuli of one controller instance: a (re)initialisation caused
by creation or by a watched-prop change, or a load-failure event. -/
inductive Op where
  | init : ImageRequest → Op
  | fail : Op
  deriving DecidableEq

/-- A controller instance together with its current candidate list and the
log of emitted signals. -/
structure FullState where
  urls : List Str
  st : ControllerState
  log : List Signal
  deriving DecidableEq

/-- One external step: `init` recomputes the candidate list and reinitialises
the cursor (leaving the cache and the log alone); `fail` runs `handleError`
and appends its signals to the log. -/
def step (f : FullState) : Op → FullState
  | Op.init req =>
      { urls := fallbackUrls req, st := initImage (fallbackUrls req) f.st, log := f.log }
  | Op.fail =>
      let r := handleError f.urls f.st
      { urls := f.urls, st := r.1, log := f.log ++ r.2 }

/-- The state of a freshly created component, before the immediate watch
fires. -/
def initialFullState : FullState :=
  { urls := [], st := { currentIndex := 0, imageKey := 0, currentSrc := [], urlCache := [] },
    log := [] }

/-- Run a sequence of external stimuli from component creation. -/
def runOps (ops : List Op) : FullState := ops.foldl step initialFullState

/-- Fuel-indexed variant of `handleError`, structurally recursive so that
concrete runs evaluate; `handleError_eq_fuel` below shows it agrees with
`handleError` whenever the fuel dominates the number of remaining
candidates (the out-of-fuel filler branch is then unreachable). -/
def handleErrorFuel (urls : List Str) : Nat → ControllerState → ControllerState × List Signal
  | gas, s =>
    let failedUrl := s.currentSrc
    let cache1 := cacheSet s.urlCache failedUrl false
    if h : urls.length ≤ s.currentIndex + 1 then
      ({ s with urlCache := cache1, currentIndex := s.currentIndex + 1 },
        [Signal.warn failedUrl, Signal.error urls])
    else
      match gas with
      | 0 =>
        ({ s with urlCache := cache1, currentIndex := s.currentIndex + 1 },
          [Signal.warn failedUrl, Signal.error urls])
      | gas' + 1 =>
        let next := urls.get ⟨s.currentIndex + 1, by omega⟩
        if cacheGet cache1 next = some false then
          let r := handleErrorFuel urls gas'
            { s with urlCache := cache1, currentIndex := s.currentIndex + 1 }
          (r.1, Signal.warn failedUrl :: r.2)
        else
          ({ s with
              urlCache := cache1, currentIndex := s.currentIndex + 1,
              currentSrc := next, imageKey := s.imageKey + 1 },
            [Signal.warn failedUrl, Signal.info next])

/-- `step` with `handleError` replaced by its fuel-indexed variant. -/
def stepFuel (gas : Nat) (f : FullState) : Op → FullState
  | Op.init req =>
      { urls := fallbackUrls req, st := initImage (fallbackUrls req) f.st, log := f.log }
  | Op.fail =>
      let r := handleErrorFuel f.urls gas f.st
      { urls := f.urls, st := r.1, log := f.log ++ r.2 }

/-- The concrete `ImageRequest` of the specification example. -/
def req0 : ImageRequest :=
  { src := "/img/photo.jpg".toList, w := 100, h := 50, ext := "webp".toList, sizes := [] }

/-! ## Lemmas about the failure cache -/

lemma cacheGet_append_of_none (c d : List (Str × Bool)) (k : Str)
    (h : cacheGet c k = none) : cacheGet (c ++ d) k = cacheGet d k := by
  induction c with
  | nil => rfl
  | cons e rest ih =>
    by_cases he : e.1 = k
    · simp [cacheGet, he] at h
    · rw [List.cons_append]
      simp only [cacheGet, he, if_false] at h ⊢
      exact ih h

lemma cacheGet_map_set (c : List (Str × Bool)) (k : Str) (v : Bool)
    (h : (cacheGet c k).isSome = true) :
    cacheGet (c.map fun e => if e.1 = k then (k, v) else e) k = some v := by
  induction c with
  | nil => simp [cacheGet] at h
  | cons e rest ih =>
    by_cases he : e.1 = k
    · simp [cacheGet, he]
    · simp only [cacheGet, he, if_false] at h
      simp only [List.map_cons, he, if_false, cacheGet]
      exact ih h

lemma map_set_of_none (c : List (Str × Bool)) (k : Str) (v : Bool)
    (h : cacheGet c k = none) :
    (c.map fun e => if e.1 = k then (k, v) else e) = c := by
  induction c with
  | nil => rfl
  | cons e rest ih =>
    by_cases he : e.1 = k
    · simp [cacheGet, he] at h
    · simp only [cacheGet, he, if_false] at h
      simp [he, ih h]

lemma map_set_idem (c : List (Str × Bool)) (k : Str) (v : Bool) :
    ((c.map fun e => if e.1 = k then (k, v) else e).map
      fun e => if e.1 = k then (k, v) else e)
      = c.map fun e => if e.1 = k then (k, v) else e := by
  induction c with
  | nil => rfl
  | cons e rest ih =>
    by_cases he : e.1 = k
    · simp [he, ih]
    · simp [he, ih]

lemma cacheGet_cacheSet_self (c : List (Str × Bool)) (k : Str) (v : Bool) :
    cacheGet (cacheSet c k v) k = some v := by
  unfold cacheSet
  by_cases h : (cacheGet c k).isSome = true
  · rw [if_pos h]
    exact cacheGet_map_set c k v h
  · rw [if_neg h]
    have hn : cacheGet c k = none := by
      cases hc : cacheGet c k with
      | none => rfl
      | some b => rw [hc] at h; simp at h
    rw [cacheGet_append_of_none _ _ _ hn]
    simp [cacheGet]

lemma cacheSet_idem (c : List (Str × Bool)) (k : Str) (v : Bool) :
    cacheSet (cacheSet c k v) k v = cacheSet c k v := by
  have hs : (cacheGet (cacheSet c k v) k).isSome = true := by
    rw [cacheGet_cacheSet_self]; rfl
  by_cases h : (cacheGet c k).isSome = true
  · have h1 : cacheSet c k v = c.map fun e => if e.1 = k then (k, v) else e := by
      unfold cacheSet; rw [if_pos h]
    rw [h1] at hs ⊢
    unfold cacheSet
    rw [if_pos hs]
    exact map_set_idem c k v
  · have hn : cacheGet c k = none := by
      cases hc : cacheGet c k with
      | none => rfl
      | some b => rw [hc] at h; simp at h
    have h1 : cacheSet c k v = c ++ [(k, v)] := by
      unfold cacheSet; rw [if_neg h]
    rw [h1] at hs ⊢
    unfold cacheSet
    rw [if_pos hs, List.map_append, map_set_of_none c k v hn]
    simp

/-! ## Lemmas about first-occurrence deduplication -/

lemma keepFirst_nil : keepFirst [] = [] := by rw [keepFirst]

lemma keepFirst_cons (x : Str) (xs : List Str) :
    keepFirst (x :: xs) = x :: keepFirst (xs.filter fun y => decide (¬ y = x)) := by
  rw [keepFirst]

lemma mem_keepFirst_aux (a : Str) :
    ∀ (n : Nat) (l : List Str), l.length ≤ n → (a ∈ keepFirst l ↔ a ∈ l) := by
  intro n
  induction n with
  | zero =>
    intro l hl
    have : l = [] := List.length_eq_zero.mp (Nat.le_zero.mp hl)
    subst this
    rw [keepFirst_nil]
  | succ n ih =>
    intro l hl
    match l with
    | [] => rw [keepFirst_nil]
    | x :: xs =>
      rw [keepFirst_cons]
      have hlen : (xs.filter fun y => decide (¬ y = x)).length ≤ n := by
        have := List.length_filter_le (fun y => decide (¬ y = x)) xs
        simp only [List.length_cons] at hl
        omega
      by_cases ha : a = x
      · subst ha; simp
      · simp only [List.mem_cons, ha, false_or]
        rw [ih (xs.filter fun y => decide (¬ y = x)) hlen]
        simp [List.mem_filter, ha]

lemma mem_keepFirst (a : Str) (l : List Str) : a ∈ keepFirst l ↔ a ∈ l :=
  mem_keepFirst_aux a l.length l (Nat.le_refl _)

lemma nodup_keepFirst_aux :
    ∀ (n : Nat) (l : List Str), l.length ≤ n → (keepFirst l).Nodup := by
  intro n
  induction n with
  | zero =>
    intro l hl
    have : l = [] := List.length_eq_zero.mp (Nat.le_zero.mp hl)
    subst this
    rw [keepFirst_nil]; exact List.nodup_nil
  | succ n ih =>
    intro l hl
    match l with
    | [] => rw [keepFirst_nil]; exact List.nodup_nil
    | x :: xs =>
      rw [keepFirst_cons]
      have hlen : (xs.filter fun y => decide (¬ y = x)).length ≤ n := by
        have := List.length_filter_le (fun y => decide (¬ y = x)) xs
        simp only [List.length_cons] at hl
        omega
      refine List.nodup_cons.mpr ⟨?_, ih _ hlen⟩
      intro hx
      rw [mem_keepFirst] at hx
      have := (List.mem_filter.mp hx).2
      simp at this

lemma nodup_keepFirst (l : List Str) : (keepFirst l).Nodup :=
  nodup_keepFirst_aux l.length l (Nat.le_refl _)

lemma foldl_insertSet :
    ∀ (l : List Str) (acc : List Str),
      l.foldl insertSet acc = acc ++ keepFirst (l.filter fun y => decide (¬ y ∈ acc)) := by
  intro l
  induction l with
  | nil => intro acc; simp [keepFirst_nil]
  | cons x xs ih =>
    intro acc
    rw [List.foldl_cons, ih]
    by_cases hx : x ∈ acc
    · have h1 : insertSet acc x = acc := by unfold insertSet; rw [if_pos hx]
      have h2 : ((x :: xs).filter fun y => decide (¬ y ∈ acc))
          = xs.filter fun y => decide (¬ y ∈ acc) := by
        rw [List.filter_cons]
        simp [hx]
      rw [h1, h2]
    · have h1 : insertSet acc x = acc ++ [x] := by unfold insertSet; rw [if_neg hx]
      have h2 : ((x :: xs).filter fun y => decide (¬ y ∈ acc))
          = x :: xs.filter fun y => decide (¬ y ∈ acc) := by
        rw [List.filter_cons]
        simp [hx]
      rw [h1, h2, keepFirst_cons]
      have h3 : ((xs.filter fun y => decide (¬ y ∈ acc)).filter fun y => decide (¬ y = x))
          = xs.filter fun y => decide (¬ y ∈ acc ++ [x]) := by
        rw [List.filter_filter]
        apply List.filter_congr
        intro a _
        by_cases hax : a = x
        · subst hax; simp
        · by_cases haacc : a ∈ acc <;> simp [hax, haacc]
      rw [h3, List.append_assoc, List.singleton_append]

lemma jsSetDedup_eq_keepFirst (l : List Str) : jsSetDedup l = keepFirst l := by
  unfold jsSetDedup
  rw [foldl_insertSet]
  have : (l.filter fun y => decide (¬ y ∈ ([] : List Str))) = l := by
    apply List.filter_eq_self.mpr
    intro a _
    simp
  rw [this, List.nil_append]

/-! ## Lemmas about the JavaScript string primitives -/

lemma jsLastIndexOf_of_not_mem (c : Char) :
    ∀ (s : Str), c ∉ s → jsLastIndexOf c s = -1 := by
  intro s
  induction s with
  | nil => intro _; rfl
  | cons a rest ih =>
    intro h
    have ha : ¬ a = c := fun hc => h (by rw [hc]; exact List.mem_cons_self c rest)
    have hr : jsLastIndexOf c rest = -1 := ih (fun hc => h (List.mem_cons_of_mem a hc))
    simp [jsLastIndexOf, hr, ha]

lemma jsLastIndexOf_eq_last (c : Char) :
    ∀ (s : Str) (p : Nat) (hp : p < s.length), s.get ⟨p, hp⟩ = c →
      (∀ q : Fin s.length, p < q.val → s.get q ≠ c) →
      jsLastIndexOf c s = (p : Int) := by
  intro s
  induction s with
  | nil => intro p hp; exact absurd hp (by simp)
  | cons a rest ih =>
    intro p hp hget hlast
    cases p with
    | zero =>
      have ha : a = c := hget
      have hnm : c ∉ rest := by
        intro hmem
        obtain ⟨i, hi⟩ := List.get_of_mem hmem
        exact hlast ⟨i.val + 1, by simp⟩ (Nat.succ_pos _) (by simpa using hi)
      have hr : jsLastIndexOf c rest = -1 := jsLastIndexOf_of_not_mem c rest hnm
      simp [jsLastIndexOf, hr, ha]
    | succ p' =>
      have hp' : p' < rest.length := by simpa using hp
      have hget' : rest.get ⟨p', hp'⟩ = c := by simpa using hget
      have hlast' : ∀ q : Fin rest.length, p' < q.val → rest.get q ≠ c := by
        intro q hq
        have := hlast ⟨q.val + 1, by simp⟩ (Nat.succ_lt_succ hq)
        simpa using this
      have hr : jsLastIndexOf c rest = (p' : Int) := ih p' hp' hget' hlast'
      simp only [jsLastIndexOf, hr]
      rw [if_pos (by omega)]
      push_cast
      ring

lemma jsSlice_zero_coe (s : Str) (p : Nat) (hp : p ≤ s.length) :
    jsSlice s 0 (p : Int) = s.take p := by
  unfold jsSlice normSliceIdx
  have h1 : ¬ ((p : Int) < 0) := by omega
  have h2 : ¬ ((0 : Int) < 0) := by norm_num
  rw [if_neg h1, if_neg h2]
  simp [Int.toNat_natCast, min_eq_left hp]

lemma jsSlice_coe_len (s : Str) (p : Nat) :
    jsSlice s (p : Int) (s.length : Int) = s.drop (min p s.length) := by
  unfold jsSlice normSliceIdx
  have h1 : ¬ ((p : Int) < 0) := by omega
  have h2 : ¬ ((s.length : Int) < 0) := by omega
  rw [if_neg h1, if_neg h2]
  simp [Int.toNat_natCast, List.take_length]

lemma jsSlice_zero_neg_one (s : Str) :
    jsSlice s 0 (-1) = s.take (s.length - 1) := by
  unfold jsSlice normSliceIdx
  have h1 : ((-1 : Int) < 0) := by norm_num
  have h2 : ¬ ((0 : Int) < 0) := by norm_num
  rw [if_pos h1, if_neg h2]
  have h3 : ((s.length : Int) + (-1)).toNat = s.length - 1 := by omega
  simp [h3]

lemma jsSlice_neg_one_len (s : Str) :
    jsSlice s (-1) (s.length : Int) = s.drop (s.length - 1) := by
  unfold jsSlice normSliceIdx
  have h1 : ((-1 : Int) < 0) := by norm_num
  have h2 : ¬ ((s.length : Int) < 0) := by omega
  rw [if_neg h2, if_pos h1]
  have h3 : ((s.length : Int) + (-1)).toNat = s.length - 1 := by omega
  simp [h3, List.take_length]

/-! ## Branch lemmas for `handleError` -/

lemma handleError_terminal (urls : List Str) (s : ControllerState)
    (h : urls.length ≤ s.currentIndex + 1) :
    handleError urls s =
      ({ s with urlCache := cacheSet s.urlCache s.currentSrc false, currentIndex := s.currentIndex + 1 },
        [Signal.warn s.currentSrc, Signal.error urls]) := by
  rw [handleError]
  simp only [dif_pos h]

lemma handleError_advance (urls : List Str) (s : ControllerState)
    (h : s.currentIndex + 1 < urls.length)
    (hgood : ¬ cacheGet (cacheSet s.urlCache s.currentSrc false)
        (urls.get ⟨s.currentIndex + 1, h⟩) = some false) :
    handleError urls s =
      ({ s with urlCache := cacheSet s.urlCache s.currentSrc false, currentIndex := s.currentIndex + 1, currentSrc := urls.get ⟨s.currentIndex + 1, h⟩, imageKey := s.imageKey + 1 },
        [Signal.warn s.currentSrc, Signal.info (urls.get ⟨s.currentIndex + 1, h⟩)]) := by
  rw [handleError]
  rw [dif_neg (show ¬ urls.length ≤ s.currentIndex + 1 by omega)]
  simp only [if_neg hgood]

lemma handleError_skip (urls : List Str) (s : ControllerState)
    (h : s.currentIndex + 1 < urls.length)
    (hbad : cacheGet (cacheSet s.urlCache s.currentSrc false)
        (urls.get ⟨s.currentIndex + 1, h⟩) = some false) :
    handleError urls s =
      ((handleError urls { s with urlCache := cacheSet s.urlCache s.currentSrc false, currentIndex := s.currentIndex + 1 }).1,
        Signal.warn s.currentSrc ::
          (handleError urls { s with urlCache := cacheSet s.urlCache s.currentSrc false, currentIndex := s.currentIndex + 1 }).2) := by
  conv_lhs => rw [handleError]
  rw [dif_neg (show ¬ urls.length ≤ s.currentIndex + 1 by omega)]
  simp only [if_pos hbad]


/-! ## Cascading behaviour of `handleError` -/

lemma handleError_skipRun (urls : List Str) :
    ∀ (d : Nat) (s : ControllerState) (j : Nat) (hj : j < urls.length),
      s.currentIndex + d + 1 = j →
      (∀ k : Fin urls.length, s.currentIndex < k.val → k.val < j →
        cacheGet (cacheSet s.urlCache s.currentSrc false) (urls.get k) = some false) →
      ¬ cacheGet (cacheSet s.urlCache s.currentSrc false) (urls.get ⟨j, hj⟩) = some false →
      handleError urls s =
        (ControllerState.mk j (s.imageKey + 1) (urls.get ⟨j, hj⟩)
            (cacheSet s.urlCache s.currentSrc false),
          List.replicate (j - s.currentIndex) (Signal.warn s.currentSrc)
            ++ [Signal.info (urls.get ⟨j, hj⟩)]) := by
  intro d
  induction d with
  | zero =>
    intro s j hj hd hbad hgood
    have hd' : j = s.currentIndex + 1 := by omega
    subst hd'
    rw [handleError_advance urls s hj hgood]
    rw [show s.currentIndex + 1 - s.currentIndex = 1 by omega, List.replicate_one]
    rfl
  | succ d ih =>
    intro s j hj hd hbad hgood
    have h1 : s.currentIndex + 1 < urls.length := by omega
    have hbad1 : cacheGet (cacheSet s.urlCache s.currentSrc false)
        (urls.get ⟨s.currentIndex + 1, h1⟩) = some false :=
      hbad ⟨s.currentIndex + 1, h1⟩ (Nat.lt_succ_self _) (show s.currentIndex + 1 < j by omega)
    rw [handleError_skip urls s h1 hbad1]
    have hc : cacheSet (cacheSet s.urlCache s.currentSrc false) s.currentSrc false
        = cacheSet s.urlCache s.currentSrc false := cacheSet_idem _ _ _
    have ihr := ih
      (ControllerState.mk (s.currentIndex + 1) s.imageKey s.currentSrc
        (cacheSet s.urlCache s.currentSrc false)) j hj
      (show s.currentIndex + 1 + d + 1 = j by omega)
      (fun k hk1 hk2 => by
        show cacheGet (cacheSet (cacheSet s.urlCache s.currentSrc false) s.currentSrc false)
            (urls.get k) = some false
        rw [hc]
        exact hbad k (Nat.lt_of_succ_lt hk1) hk2)
      (by
        show ¬ cacheGet (cacheSet (cacheSet s.urlCache s.currentSrc false) s.currentSrc false)
            (urls.get ⟨j, hj⟩) = some false
        rw [hc]
        exact hgood)
    rw [ihr]
    have e1 : j - (s.currentIndex + 1) = d + 1 := by omega
    have e2 : j - s.currentIndex = d + 1 + 1 := by omega
    simp only [hc, e1, e2, List.replicate_succ, List.cons_append]

lemma handleError_exhaustRun (urls : List Str) :
    ∀ (d : Nat) (s : ControllerState),
      s.currentIndex + d + 1 = urls.length →
      (∀ k : Fin urls.length, s.currentIndex < k.val →
        cacheGet (cacheSet s.urlCache s.currentSrc false) (urls.get k) = some false) →
      handleError urls s =
        (ControllerState.mk urls.length s.imageKey s.currentSrc
            (cacheSet s.urlCache s.currentSrc false),
          List.replicate (urls.length - s.currentIndex) (Signal.warn s.currentSrc)
            ++ [Signal.error urls]) := by
  intro d
  induction d with
  | zero =>
    intro s hd hbad
    rw [handleError_terminal urls s (by omega)]
    rw [show urls.length - s.currentIndex = 1 by omega, List.replicate_one]
    rw [show s.currentIndex + 1 = urls.length by omega]
    rfl
  | succ d ih =>
    intro s hd hbad
    have h1 : s.currentIndex + 1 < urls.length := by omega
    have hbad1 : cacheGet (cacheSet s.urlCache s.currentSrc false)
        (urls.get ⟨s.currentIndex + 1, h1⟩) = some false :=
      hbad ⟨s.currentIndex + 1, h1⟩ (Nat.lt_succ_self _)
    rw [handleError_skip urls s h1 hbad1]
    have hc : cacheSet (cacheSet s.urlCache s.currentSrc false) s.currentSrc false
        = cacheSet s.urlCache s.currentSrc false := cacheSet_idem _ _ _
    have ihr := ih
      (ControllerState.mk (s.currentIndex + 1) s.imageKey s.currentSrc
        (cacheSet s.urlCache s.currentSrc false))
      (show s.currentIndex + 1 + d + 1 = urls.length by omega)
      (fun k hk1 => by
        show cacheGet (cacheSet (cacheSet s.urlCache s.currentSrc false) s.currentSrc false)
            (urls.get k) = some false
        rw [hc]
        exact hbad k (Nat.lt_of_succ_lt hk1))
    rw [ihr]
    have e1 : urls.length - (s.currentIndex + 1) = d + 1 := by omega
    have e2 : urls.length - s.currentIndex = d + 1 + 1 := by omega
    simp only [hc, e1, e2, List.replicate_succ, List.cons_append]

lemma handleError_src_tracks (urls : List Str) :
    ∀ (n : Nat) (s : ControllerState), urls.length - s.currentIndex ≤ n →
      (handleError urls s).1.currentIndex < urls.length →
      (handleError urls s).1.currentSrc
        = urls.getD (handleError urls s).1.currentIndex [] := by
  intro n
  induction n with
  | zero =>
    intro s hn h
    rw [handleError_terminal urls s (by omega)] at h
    have h' : s.currentIndex + 1 < urls.length := h
    omega
  | succ n ih =>
    intro s hn h
    by_cases hterm : urls.length ≤ s.currentIndex + 1
    · rw [handleError_terminal urls s hterm] at h
      have h' : s.currentIndex + 1 < urls.length := h
      omega
    · have h1 : s.currentIndex + 1 < urls.length := by omega
      by_cases hcache : cacheGet (cacheSet s.urlCache s.currentSrc false)
          (urls.get ⟨s.currentIndex + 1, h1⟩) = some false
      · rw [handleError_skip urls s h1 hcache] at h ⊢
        exact ih _ (show urls.length - (s.currentIndex + 1) ≤ n by omega) h
      · rw [handleError_advance urls s h1 hcache]
        show urls.get ⟨s.currentIndex + 1, h1⟩ = urls.getD (s.currentIndex + 1) []
        rw [List.getD_eq_getElem?_getD, List.getElem?_eq_getElem h1]
        rfl

/-! ## Agreement of `handleError` with its fuel-indexed variant -/

lemma handleError_eq_fuel (urls : List Str) :
    ∀ (gas : Nat) (s : ControllerState), urls.length - s.currentIndex ≤ gas + 1 →
      handleError urls s = handleErrorFuel urls gas s := by
  intro gas
  induction gas with
  | zero =>
    intro s hgas
    have hterm : urls.length ≤ s.currentIndex + 1 := by omega
    rw [handleError_terminal urls s hterm, handleErrorFuel, dif_pos hterm]
  | succ gas ih =>
    intro s hgas
    by_cases hterm : urls.length ≤ s.currentIndex + 1
    · rw [handleError_terminal urls s hterm, handleErrorFuel, dif_pos hterm]
    · have h1 : s.currentIndex + 1 < urls.length := by omega
      by_cases hcache : cacheGet (cacheSet s.urlCache s.currentSrc false)
          (urls.get ⟨s.currentIndex + 1, h1⟩) = some false
      · rw [handleError_skip urls s h1 hcache]
        rw [ih { s with urlCache := cacheSet s.urlCache s.currentSrc false, currentIndex := s.currentIndex + 1 }
          (show urls.length - (s.currentIndex + 1) ≤ gas + 1 by omega)]
        conv_rhs => rw [handleErrorFuel]
        rw [dif_neg hterm]
        simp only [if_pos hcache]
      · rw [handleError_advance urls s h1 hcache]
        conv_rhs => rw [handleErrorFuel]
        rw [dif_neg hterm]
        simp only [if_neg hcache]

lemma step_eq_stepFuel (gas : Nat) (f : FullState) (op : Op)
    (h : f.urls.length ≤ gas + 1) : step f op = stepFuel gas f op := by
  cases op with
  | init req => rfl
  | fail =>
    simp only [step, stepFuel]
    rw [handleError_eq_fuel f.urls gas f.st (by omega)]

/-! ## The candidate list and initialisation -/

lemma fallbackUrls_eq_spec (req : ImageRequest) :
    fallbackUrls req = candidateListSpec req := by
  unfold fallbackUrls candidateListSpec
  rw [jsSetDedup_eq_keepFirst]
  by_cases h : 0 < req.sizes.length
  · rw [if_pos h]
  · rw [if_neg h]
    have hnil : req.sizes = [] := List.length_eq_zero.mp (by omega)
    rw [hnil]
    simp

lemma jsOrEmptyStr_some (x : Str) : jsOrEmptyStr (some x) = x := by
  show (if x = [] then [] else x) = x
  by_cases hx : x = []
  · rw [if_pos hx, hx]
  · rw [if_neg hx]

lemma fallbackUrls_head (req : ImageRequest) :
    fallbackUrls req ≠ []
      ∧ (fallbackUrls req).headI
          = makeResizedImageUrl { src := srcWithExt req, w := some req.w, h := some req.h } := by
  rw [fallbackUrls_eq_spec]
  unfold candidateListSpec
  rw [show ([makeResizedImageUrl { src := srcWithExt req, w := some req.w, h := some req.h }]
        ++ req.sizes.map (sizeCandidate req) ++ [srcWithExt req])
      = makeResizedImageUrl { src := srcWithExt req, w := some req.w, h := some req.h }
        :: (req.sizes.map (sizeCandidate req) ++ [srcWithExt req]) by simp]
  rw [keepFirst_cons]
  exact ⟨by simp, rfl⟩

lemma initImage_src (urls : List Str) (s : ControllerState) (h : 0 < urls.length) :
    (initImage urls s).currentSrc = urls.getD 0 [] := by
  unfold initImage
  simp only
  rw [List.getElem?_eq_getElem h, jsOrEmptyStr_some]
  rw [List.getD_eq_getElem?_getD, List.getElem?_eq_getElem h]
  rfl

/-! ## The cursor invariant along any run -/

lemma step_cursor (f : FullState) (op : Op)
    (_hf : f.st.currentIndex < f.urls.length →
      f.st.currentSrc = f.urls.getD f.st.currentIndex []) :
    (step f op).st.currentIndex < (step f op).urls.length →
      (step f op).st.currentSrc = (step f op).urls.getD (step f op).st.currentIndex [] := by
  cases op with
  | init req =>
    intro h
    show (initImage (fallbackUrls req) f.st).currentSrc = (fallbackUrls req).getD 0 []
    exact initImage_src _ _ h
  | fail =>
    intro h
    exact handleError_src_tracks f.urls (f.urls.length - f.st.currentIndex) f.st (Nat.le_refl _) h

lemma runAux_cursor :
    ∀ (ops : List Op) (f : FullState),
      (f.st.currentIndex < f.urls.length →
        f.st.currentSrc = f.urls.getD f.st.currentIndex []) →
      ((ops.foldl step f).st.currentIndex < (ops.foldl step f).urls.length →
        (ops.foldl step f).st.currentSrc
          = (ops.foldl step f).urls.getD (ops.foldl step f).st.currentIndex []) := by
  intro ops
  induction ops with
  | nil => intro f hf; exact hf
  | cons op rest ih =>
    intro f hf
    rw [List.foldl_cons]
    exact ih (step f op) (step_cursor f op hf)

/-! ## Concrete runs on the specification example -/

lemma run3_eq :
    runOps [Op.init req0, Op.fail, Op.fail]
      = stepFuel 9 (stepFuel 9 (step initialFullState (Op.init req0)) Op.fail) Op.fail := by
  show step (step (step initialFullState (Op.init req0)) Op.fail) Op.fail = _
  rw [step_eq_stepFuel 9 (step initialFullState (Op.init req0)) Op.fail (by decide)]
  rw [step_eq_stepFuel 9 (stepFuel 9 (step initialFullState (Op.init req0)) Op.fail) Op.fail
    (by decide)]

lemma run4_eq :
    runOps [Op.init req0, Op.fail, Op.fail, Op.fail]
      = stepFuel 9 (stepFuel 9 (stepFuel 9 (step initialFullState (Op.init req0)) Op.fail) Op.fail)
          Op.fail := by
  show step (step (step (step initialFullState (Op.init req0)) Op.fail) Op.fail) Op.fail = _
  rw [step_eq_stepFuel 9 (step initialFullState (Op.init req0)) Op.fail (by decide)]
  rw [step_eq_stepFuel 9 (stepFuel 9 (step initialFullState (Op.init req0)) Op.fail) Op.fail
    (by decide)]
  rw [step_eq_stepFuel 9
    (stepFuel 9 (stepFuel 9 (step initialFullState (Op.init req0)) Op.fail) Op.fail) Op.fail
    (by decide)]

/-! ## Claim theorems -/

/-- C1 (amended): an `onLoadFailure` call in or into the terminal state
(`currentIndex + 1 ≥ CandidateList.length`) emits exactly the warning for the
current URL followed by exactly one error signal carrying the full candidate
list; it leaves `currentUrl` and `renderKey` unchanged but increments
`currentIndex`, and the call after it leaves the FailureCache unchanged.
Farther calls before the next initialize are therefore not complete no-ops:
they keep incrementing `currentIndex` and re-emit the warning and error
signals. -/
theorem allFailed_further_failures (urls : List Str) (s : ControllerState)
    (h : urls.length ≤ s.currentIndex + 1) :
    (handleError urls s).2 = [Signal.warn s.currentSrc, Signal.error urls]
      ∧ (handleError urls s).1.currentSrc = s.currentSrc
      ∧ (handleError urls s).1.imageKey = s.imageKey
      ∧ (handleError urls s).1.currentIndex = s.currentIndex + 1
      ∧ (handleError urls ((handleError urls s).1)).1.urlCache
          = (handleError urls s).1.urlCache := by
  rw [handleError_terminal urls s h]
  refine ⟨rfl, rfl, rfl, rfl, ?_⟩
  rw [handleError_terminal urls _ (show urls.length ≤ s.currentIndex + 1 + 1 by omega)]
  exact cacheSet_idem s.urlCache s.currentSrc false

/-- Witness for C1's amended theorem at a concrete terminal state. -/
theorem allFailed_further_failures_witness :
    (handleError ["ab".toList]
        (ControllerState.mk 1 7 ("ab".toList) [("ab".toList, false)])).2
      = [Signal.warn ("ab".toList), Signal.error ["ab".toList]] :=
  (allFailed_further_failures ["ab".toList]
    (ControllerState.mk 1 7 ("ab".toList) [("ab".toList, false)]) (by decide)).1

/-- C1 counterexample: on the spec's two-candidate example, the third
`onLoadFailure` after exhaustion changes `currentIndex` and emits two more
signals, so it is not a no-op. -/
theorem allFailed_not_noop_counterexample :
    (runOps [Op.init req0, Op.fail, Op.fail, Op.fail]).st.currentIndex
        ≠ (runOps [Op.init req0, Op.fail, Op.fail]).st.currentIndex
      ∧ (runOps [Op.init req0, Op.fail, Op.fail, Op.fail]).log.length
          = (runOps [Op.init req0, Op.fail, Op.fail]).log.length + 2 := by
  rw [run3_eq, run4_eq]
  decide

/-- C2 (amended): after any sequence of initialize / onLoadFailure calls,
whenever `currentIndex` is below `CandidateList.length` it is a valid index
and `currentUrl` is exactly `CandidateList[currentIndex]`; otherwise the
controller is in the terminal all-failed state, and `currentIndex` can
strictly exceed `CandidateList.length` (by one per extra call) when
`onLoadFailure` fires again after exhaustion. -/
theorem cursor_tracks_candidate (ops : List Op) :
    (runOps ops).st.currentIndex < (runOps ops).urls.length →
      (runOps ops).st.currentSrc = (runOps ops).urls.getD (runOps ops).st.currentIndex [] :=
  runAux_cursor ops initialFullState (fun h => absurd h (by decide))

/-- Witness for C2's amended theorem after one initialize. -/
theorem cursor_tracks_candidate_witness :
    (runOps [Op.init req0]).st.currentSrc
      = (runOps [Op.init req0]).urls.getD (runOps [Op.init req0]).st.currentIndex [] :=
  cursor_tracks_candidate [Op.init req0] (by decide)

/-- C2 counterexample: after three failures on a two-candidate list the
cursor is `3 > 2 = CandidateList.length`, so `currentIndex` does exceed the
length. -/
theorem cursor_can_exceed_length :
    (runOps [Op.init req0, Op.fail, Op.fail, Op.fail]).st.currentIndex = 3
      ∧ (runOps [Op.init req0, Op.fail, Op.fail, Op.fail]).urls.length = 2 := by
  rw [run4_eq]
  decide

/-- C3: for every `ImageRequest`, the computed CandidateList equals the
specification's ordering — primary resized URL, then one resized URL per
`sizes` entry in input order, then the extension-swapped unsized src — with
exact-string duplicates removed keeping the first occurrence
(`candidateListSpec` is `keepFirst` of that raw list), and the result has no
duplicate strings. -/
theorem candidateList_order_dedup (req : ImageRequest) :
    fallbackUrls req = candidateListSpec req ∧ (fallbackUrls req).Nodup := by
  refine ⟨fallbackUrls_eq_spec req, ?_⟩
  rw [fallbackUrls_eq_spec req]
  exact nodup_keepFirst _

/-- C4: the skip law.  First conjunct: if every candidate strictly between
the cursor and position `j` is cached as bad (after the failing URL itself is
cached) and candidate `j` is not, one `onLoadFailure` call lands exactly on
candidate `j`, sets it as `currentUrl` with a fresh render key, and the only
info ("trying") signal emitted is for candidate `j` — skipped candidates get
no info signal and are never set as `currentUrl`.  Second conjunct: if every
remaining candidate is cached as bad, the call cascades to terminal
exhaustion, leaving `currentUrl` and the render key unchanged and emitting
the error signal. -/
theorem skip_law (urls : List Str) (s : ControllerState) :
    (∀ (j : Fin urls.length), s.currentIndex < j.val →
      (∀ k : Fin urls.length, s.currentIndex < k.val → k.val < j.val →
        cacheGet (cacheSet s.urlCache s.currentSrc false) (urls.get k) = some false) →
      ¬ cacheGet (cacheSet s.urlCache s.currentSrc false) (urls.get j) = some false →
      handleError urls s =
        (ControllerState.mk j.val (s.imageKey + 1) (urls.get j)
            (cacheSet s.urlCache s.currentSrc false),
          List.replicate (j.val - s.currentIndex) (Signal.warn s.currentSrc)
            ++ [Signal.info (urls.get j)]))
    ∧ (s.currentIndex < urls.length →
      (∀ k : Fin urls.length, s.currentIndex < k.val →
        cacheGet (cacheSet s.urlCache s.currentSrc false) (urls.get k) = some false) →
      handleError urls s =
        (ControllerState.mk urls.length s.imageKey s.currentSrc
            (cacheSet s.urlCache s.currentSrc false),
          List.replicate (urls.length - s.currentIndex) (Signal.warn s.currentSrc)
            ++ [Signal.error urls])) := by
  constructor
  · intro j hj hbad hgood
    exact handleError_skipRun urls (j.val - s.currentIndex - 1) s j.val j.isLt
      (by omega) hbad hgood
  · intro hlt hbad
    exact handleError_exhaustRun urls (urls.length - s.currentIndex - 1) s (by omega) hbad

/-- Witness for C4 on a three-candidate list whose middle candidate is cached
bad: one call skips it and lands on the third candidate. -/
theorem skip_law_witness :
    handleError ["aa".toList, "bb".toList, "cc".toList]
        (ControllerState.mk 0 0 ("aa".toList) [("bb".toList, false)])
      = (ControllerState.mk 2 1 ("cc".toList)
            [("bb".toList, false), ("aa".toList, false)],
          [Signal.warn ("aa".toList), Signal.warn ("aa".toList),
            Signal.info ("cc".toList)]) := by
  have h := (skip_law ["aa".toList, "bb".toList, "cc".toList]
      (ControllerState.mk 0 0 ("aa".toList) [("bb".toList, false)])).1
    ⟨2, by decide⟩ (by decide) (by decide) (by decide)
  rw [h]
  decide

/-- C5: for every src containing a `.` (with `p` its last-dot position),
`makeResizedImageUrl` returns exactly base ++ sizeTag ++ extension ++
densitySuffix, where base is src up to its last dot, sizeTag is
`__WxH` exactly when both w and h are truthy and empty otherwise,
extension is `.ext` whenever ext is provided and truthy (a non-empty
string, as in the source's truthiness test) and the original extension
slice including the dot otherwise, and densitySuffix is a space, the
density and `x` when dens is provided and truthy; it is total and always
returns a string. -/
theorem makeResizedImageUrl_formula (src : Str) (w h dens : Option Nat) (ext : Option Str)
    (p : Nat) (hp : p < src.length) (hdot : src.get ⟨p, hp⟩ = '.')
    (hlast : ∀ q : Fin src.length, p < q.val → src.get q ≠ '.') :
    makeResizedImageUrl { src := src, w := w, h := h, dens := dens, ext := ext } =
      src.take p
        ++ (if truthyN w && truthyN h then
              ('_' :: '_' :: natToStr (w.getD 0)) ++ 'x' :: natToStr (h.getD 0)
            else [])
        ++ (if truthyS ext then '.' :: ext.getD [] else src.drop p)
        ++ (if truthyN dens then ' ' :: (natToStr (dens.getD 0) ++ ['x']) else []) := by
  have hli : jsLastIndexOf '.' src = (p : Int) := jsLastIndexOf_eq_last '.' src p hp hdot hlast
  unfold makeResizedImageUrl
  simp only [hli]
  rw [jsSlice_zero_coe src p (Nat.le_of_lt hp)]
  rw [jsSlice_coe_len src p]
  rw [min_eq_left (Nat.le_of_lt hp)]

/-- Witness for C5 at the concrete input `/img/photo.jpg`, 100 by 50,
extension `webp`, density 2. -/
theorem makeResizedImageUrl_formula_witness :
    makeResizedImageUrl
        (ImgUrlArgs.mk ("/img/photo.jpg".toList) (some 100) (some 50) (some 2)
          (some ("webp".toList)))
      = "/img/photo__100x50.webp 2x".toList := by
  have h := makeResizedImageUrl_formula "/img/photo.jpg".toList (some 100) (some 50) (some 2)
    (some ("webp".toList)) 10 (by decide) (by decide) (by decide)
  rw [h]
  decide

/-- C6: `initializeImage` is idempotent and leaves the FailureCache alone:
two consecutive initializes with the same request give the same
CandidateList, reset the cursor to 0 both times (whatever the prior state,
in particular after failures advanced it), agree on `currentUrl`, and no
initialize removes or modifies any cache entry. -/
theorem initImage_idempotent_cache_preserved (req : ImageRequest) (f : FullState) :
    (step f (Op.init req)).urls = fallbackUrls req
      ∧ (step (step f (Op.init req)) (Op.init req)).urls = (step f (Op.init req)).urls
      ∧ (step f (Op.init req)).st.currentIndex = 0
      ∧ (step (step f (Op.init req)) (Op.init req)).st.currentIndex = 0
      ∧ (step (step f (Op.init req)) (Op.init req)).st.currentSrc
          = (step f (Op.init req)).st.currentSrc
      ∧ (step f (Op.init req)).st.urlCache = f.st.urlCache
      ∧ (step (step f (Op.init req)) (Op.init req)).st.urlCache = f.st.urlCache :=
  ⟨rfl, rfl, rfl, rfl, rfl, rfl, rfl⟩

/-- C7: the frame property of the exhaustion transition: the
`onLoadFailure` call that moves the controller from the last candidate into
the all-failed state mutates neither `currentUrl` nor `renderKey`; the host
keeps displaying the last candidate. -/
theorem exhaustion_frame (urls : List Str) (s : ControllerState)
    (h : s.currentIndex + 1 = urls.length) :
    (handleError urls s).1.currentSrc = s.currentSrc
      ∧ (handleError urls s).1.imageKey = s.imageKey := by
  rw [handleError_terminal urls s (by omega)]
  exact ⟨rfl, rfl⟩

/-- Witness for C7 at a one-candidate list. -/
theorem exhaustion_frame_witness :
    (handleError ["xy".toList] (ControllerState.mk 0 3 ("xy".toList) [])).1.currentSrc
        = "xy".toList
      ∧ (handleError ["xy".toList] (ControllerState.mk 0 3 ("xy".toList) [])).1.imageKey = 3 :=
  exhaustion_frame ["xy".toList] (ControllerState.mk 0 3 ("xy".toList) []) (by decide)

/-- C8: `makeResizedSrcSet` equals the map of every variant through
`makeResizedImageUrl` with that variant's w, h, ext and dens, joined with
a comma and space; the empty variant list gives the empty string, and the
specification's example evaluates as stated. -/
theorem makeResizedSrcSet_map_join (src : Str) (sizes : List SizeVariant) :
    makeResizedSrcSet src sizes
        = jsJoin (", ".toList)
            (sizes.map fun v =>
              makeResizedImageUrl { src := src, w := v.w, h := v.h, dens := v.dens, ext := v.ext })
      ∧ makeResizedSrcSet src [] = []
      ∧ makeResizedSrcSet ("/a/b.png".toList)
          [{ w := some 50, h := some 50 },
            { w := some 100, h := some 100, ext := some ("avif".toList) }]
          = "/a/b__50x50.png, /a/b__100x100.avif".toList :=
  ⟨rfl, rfl, by decide⟩

/-- C9 counterexample: for the dot-less source `abc` with w = h = 1 the
result is `ab__1x1c` — JavaScript's `slice(0, -1)` drops the last character
— so the result does not start with the whole source and the claimed
"base = whole string" reading is false. -/
theorem extensionless_src_counterexample :
    makeResizedImageUrl { src := "abc".toList, w := some 1, h := some 1 } = "ab__1x1c".toList
      ∧ ¬ (makeResizedImageUrl { src := "abc".toList, w := some 1, h := some 1 }).take 3
            = "abc".toList := by
  decide

/-- C9 (amended): for every src with no `.`, `lastIndexOf` returns `-1`, so
base is src without its last character (`slice(0, -1)`) and, when ext is not
truthy, the extension slice is just the last character of src
(`slice(-1)`); the result is therefore `dropLast src ++ sizeTag ++ extension
++ densitySuffix`, not a string starting with the whole src. -/
theorem extensionless_src_behavior (src : Str) (w h dens : Option Nat) (ext : Option Str)
    (hnd : '.' ∉ src) :
    makeResizedImageUrl { src := src, w := w, h := h, dens := dens, ext := ext } =
      src.dropLast
        ++ (if truthyN w && truthyN h then
              ('_' :: '_' :: natToStr (w.getD 0)) ++ 'x' :: natToStr (h.getD 0)
            else [])
        ++ (if truthyS ext then '.' :: ext.getD [] else src.drop (src.length - 1))
        ++ (if truthyN dens then ' ' :: (natToStr (dens.getD 0) ++ ['x']) else []) := by
  have hli : jsLastIndexOf '.' src = -1 := jsLastIndexOf_of_not_mem '.' src hnd
  unfold makeResizedImageUrl
  simp only [hli]
  rw [jsSlice_zero_neg_one, jsSlice_neg_one_len]
  rw [List.dropLast_eq_take]

/-- Witness for C9's amended theorem at the dot-less source `abc`. -/
theorem extensionless_src_behavior_witness :
    makeResizedImageUrl { src := "abc".toList, w := some 2, h := some 3 } = "ab__2x3c".toList := by
  have h := extensionless_src_behavior "abc".toList (some 2) (some 3) none none (by decide)
  rw [h]
  decide

/-- C10: for every request — including the degenerate empty src — the
CandidateList has length at least one (its head is the primary resized URL),
and `initializeImage` always sets `currentUrl` to `CandidateList[0]`; the
empty-string fallback branch for an empty list can never produce anything
but the first candidate. -/
theorem candidateList_nonempty_init_head (req : ImageRequest) (f : FullState) :
    1 ≤ (fallbackUrls req).length
      ∧ (step f (Op.init req)).st.currentSrc = (fallbackUrls req).headI := by
  obtain ⟨hne, _⟩ := fallbackUrls_head req
  constructor
  · cases hu : fallbackUrls req with
    | nil => exact absurd hu hne
    | cons a t => simp
  · show jsOrEmptyStr (fallbackUrls req)[0]? = (fallbackUrls req).headI
    cases hu : fallbackUrls req with
    | nil => exact absurd hu hne
    | cons a t =>
      simp [jsOrEmptyStr_some]
